import Mathlib

/-!
Verification of the import-restriction policy of `eslint-config-kiroku`.

The repository ships a single flat ESLint configuration (`src/index.mjs`).
The policy data — the `restrictedImportPaths` list, the
`restrictedImportPatterns` list and the `prefer-alias` alias map — is
embedded below verbatim from the source.  The rule-evaluation engine that
consumes this data (pattern matcher, import evaluator, config loader) is
not part of the repository; those components are modelled from the
specification, as marked on each definition.
-/

namespace Kiroku

/-- A restricted-symbol rule: an exact module path, a list of forbidden
imported names (empty means the whole module is forbidden) and a message.
Mirrors the entries of `restrictedImportPaths` in `src/index.mjs`, where
the `importNames` field is optional and its absence means the whole module
is restricted. -/
structure SymbolRule where
  modulePath : String
  forbiddenNames : List String
  message : String
deriving DecidableEq

/-- A restricted-pattern rule after the include/exclude split: globs to
match and globs that suppress the rule, plus a message. -/
structure PatternRule where
  includeGlobs : List String
  excludeGlobs : List String
  message : String
deriving DecidableEq

/-- A parsed import statement: the module path and the set of imported
names (empty for a bare or namespace import), represented as a list. -/
structure ImportDescriptor where
  modulePath : String
  importedNames : List String
deriving DecidableEq

/-- Reference from a violation back to the rule that produced it. -/
inductive PolicyRule where
  | symbol : SymbolRule → PolicyRule
  | pattern : PatternRule → PolicyRule
deriving DecidableEq

/-- A single detected policy breach for one import statement. -/
structure Violation where
  rule : PolicyRule
  modulePath : String
  matchedName : Option String
  message : String
deriving DecidableEq

/-! ## Pattern matcher

Modelled from the spec: `matches(glob, path) -> bool`, where `*` matches
any run of characters except the path separator `/`, and `**` matches any
run of characters including separators.  The glob is first tokenized
(`**` takes priority over `*`), then matched with a fuel-bounded
recursion; the fuel is always chosen large enough, as proved below. -/

/-- A glob token: a literal character, `*`, or `**`. -/
inductive GlobTok where
  | lit : Char → GlobTok
  | star : GlobTok
  | dstar : GlobTok
deriving DecidableEq

/-- Modelled from the spec: split a glob string into tokens; `**` is read
before `*`. -/
def tokenize : List Char → List GlobTok
  | [] => []
  | '*' :: '*' :: g => .dstar :: tokenize g
  | '*' :: g => .star :: tokenize g
  | c :: g => .lit c :: tokenize g

/-- Modelled from the spec: fuel-bounded matcher of a token list against a
path.  `lit c` consumes the equal character, `star` consumes any run of
non-separator characters, `dstar` consumes any run at all. -/
def tokMatchAux : Nat → List GlobTok → List Char → Bool
  | 0, _, _ => false
  | _ + 1, [], p => p.isEmpty
  | _ + 1, .lit _ :: _, [] => false
  | f + 1, .lit c :: g, d :: p => c = d && tokMatchAux f g p
  | f + 1, .star :: g, p =>
    tokMatchAux f g p ||
      match p with
      | [] => false
      | d :: p' => decide (d ≠ '/') && tokMatchAux f (.star :: g) p'
  | f + 1, .dstar :: g, p =>
    tokMatchAux f g p ||
      match p with
      | [] => false
      | _ :: p' => tokMatchAux f (.dstar :: g) p'

/-- Modelled from the spec: the pure boolean pattern matcher
`matches(glob, path)`.  The fuel `tokens + path + 1` suffices because each
recursive step of `tokMatchAux` shrinks `tokens + path`. -/
def globMatches (glob path : String) : Bool :=
  let ts := tokenize glob.toList
  tokMatchAux (ts.length + path.toList.length + 1) ts path.toList

/-- Declarative semantics of a token list: `lit c` matches exactly `c`,
`star` matches any separator-free run, `dstar` matches any run. -/
inductive TokSem : List GlobTok → List Char → Prop where
  | nil : TokSem [] []
  | lit {c : Char} {g : List GlobTok} {p : List Char} :
      TokSem g p → TokSem (.lit c :: g) (c :: p)
  | star {g : List GlobTok} {pre suf : List Char} :
      (∀ c ∈ pre, c ≠ '/') → TokSem g suf → TokSem (.star :: g) (pre ++ suf)
  | dstar {g : List GlobTok} {pre suf : List Char} :
      TokSem g suf → TokSem (.dstar :: g) (pre ++ suf)

/-! ## Import evaluator

Modelled from the spec: `evaluate(descriptor, store)` runs an exact-match
pass over the symbol rules and a pattern pass over the pattern rules,
unconditionally and independently, and concatenates the violations. -/

/-- The loaded, read-only policy rule store. -/
structure Store where
  symbolRules : List SymbolRule
  patternRules : List PatternRule
  aliasRules : List (String × String)
deriving DecidableEq

/-- Modelled from the spec: the exact-match pass for one symbol rule.  If
the rule's module path equals the descriptor's, emit one whole-module
violation when `forbiddenNames` is empty, otherwise one violation per
forbidden name that is actually imported. -/
def evalSymbolRule (r : SymbolRule) (d : ImportDescriptor) : List Violation :=
  if r.modulePath = d.modulePath then
    if r.forbiddenNames = [] then
      [⟨.symbol r, d.modulePath, none, r.message⟩]
    else
      (r.forbiddenNames.filter (fun n => d.importedNames.contains n)).map
        (fun n => ⟨.symbol r, d.modulePath, some n, r.message⟩)
  else []

/-- Modelled from the spec: a pattern rule fires on a path iff some
include glob matches and no exclude glob matches. -/
def patternFires (r : PatternRule) (path : String) : Bool :=
  r.includeGlobs.any (fun g => globMatches g path) &&
    !(r.excludeGlobs.any (fun g => globMatches g path))

/-- Modelled from the spec: the exact-match pass over the whole store. -/
def symbolPass (d : ImportDescriptor) (s : Store) : List Violation :=
  s.symbolRules.flatMap (fun r => evalSymbolRule r d)

/-- Modelled from the spec: the pattern pass; a firing pattern rule emits
one module-level violation. -/
def patternPass (d : ImportDescriptor) (s : Store) : List Violation :=
  s.patternRules.filterMap (fun r =>
    if patternFires r d.modulePath then
      some ⟨.pattern r, d.modulePath, none, r.message⟩
    else none)

/-- Modelled from the spec: `evaluate` is the concatenation of the two
passes, without deduplication. -/
def evaluate (d : ImportDescriptor) (s : Store) : List Violation :=
  symbolPass d s ++ patternPass d s

/-! ## Config loader

Modelled from the spec: `load(rawConfig)` fails with a `ConfigError` when
an alias prefix collides with an existing one or when a restricted rule is
missing its message; otherwise it produces the immutable store. -/

/-- Raw symbol rule as written in the configuration: the message may be
absent (malformed). -/
structure RawSymbolRule where
  modulePath : String
  forbiddenNames : List String
  message : Option String
deriving DecidableEq

/-- Raw pattern rule as written in the configuration: a single `group`
list where a leading `!` marks an exclusion, and an optional message. -/
structure RawPatternRule where
  group : List String
  message : Option String
deriving DecidableEq

/-- A raw configuration payload. -/
structure RawConfig where
  aliases : List (String × String)
  symbolRules : List RawSymbolRule
  patternRules : List RawPatternRule
deriving DecidableEq

/-- Load-time configuration errors. -/
inductive ConfigError where
  | aliasCollision : String → ConfigError
  | missingMessage : ConfigError
deriving DecidableEq

/-- Modelled from the spec: insert one alias, failing when its prefix is
already bound. -/
def addAlias (m : List (String × String)) (a : String × String) :
    Except ConfigError (List (String × String)) :=
  if m.any (fun q => q.1 = a.1) then .error (.aliasCollision a.1)
  else .ok (m ++ [a])

/-- Modelled from the spec: insert all aliases in order. -/
def loadAliases (acc : List (String × String)) :
    List (String × String) → Except ConfigError (List (String × String))
  | [] => .ok acc
  | a :: rest =>
    match addAlias acc a with
    | .error e => .error e
    | .ok acc' => loadAliases acc' rest

/-- Modelled from the spec: validate one raw symbol rule; a missing
message is a `ConfigError`. -/
def loadSymbolRule (r : RawSymbolRule) : Except ConfigError SymbolRule :=
  match r.message with
  | none => .error .missingMessage
  | some m => .ok ⟨r.modulePath, r.forbiddenNames, m⟩

/-- Whether a glob is an exclusion, i.e. starts with `!`. -/
def isExclusion (g : String) : Bool :=
  match g.toList with
  | '!' :: _ => true
  | _ => false

/-- Strip the leading `!` of an exclusion glob. -/
def stripExclusion (g : String) : String :=
  match g.toList with
  | '!' :: rest => ⟨rest⟩
  | _ => g

/-- Modelled from the spec: split a raw `group` into include globs and
exclude globs; a leading `!` marks an exclusion and is stripped. -/
def splitGroup (gs : List String) : List String × List String :=
  (gs.filter (fun g => !isExclusion g),
   (gs.filter (fun g => isExclusion g)).map stripExclusion)

/-- Modelled from the spec: validate one raw pattern rule; a missing
message is a `ConfigError`. -/
def loadPatternRule (r : RawPatternRule) : Except ConfigError PatternRule :=
  match r.message with
  | none => .error .missingMessage
  | some m => .ok ⟨(splitGroup r.group).1, (splitGroup r.group).2, m⟩

/-- Modelled from the spec: validate a list of raw rules, stopping at the
first error. -/
def loadList {α β : Type} (f : α → Except ConfigError β) :
    List α → Except ConfigError (List β)
  | [] => .ok []
  | a :: rest =>
    match f a with
    | .error e => .error e
    | .ok b =>
      match loadList f rest with
      | .error e => .error e
      | .ok bs => .ok (b :: bs)

/-- Modelled from the spec: `load(rawConfig) -> Store`, failing with a
`ConfigError` on an alias-prefix collision or a missing message. -/
def load (c : RawConfig) : Except ConfigError Store :=
  match loadAliases [] c.aliases with
  | .error e => .error e
  | .ok al =>
    match loadList loadSymbolRule c.symbolRules with
    | .error e => .error e
    | .ok sr =>
      match loadList loadPatternRule c.patternRules with
      | .error e => .error e
      | .ok pr => .ok ⟨sr, pr, al⟩

/-! ## The configured policy data

Embedded from `restrictedImportPaths`, `restrictedImportPatterns` and the
`@dword-design/import-alias/prefer-alias` alias map in `src/index.mjs`. -/

/-- `restrictedImportPaths[0]` — the `react-native` rule; its message is
the `join("\n")` of the per-symbol guidance lines. -/
def rnRule : SymbolRule :=
  ⟨"react-native",
   ["useWindowDimensions", "StatusBar", "TouchableOpacity",
    "TouchableWithoutFeedback", "TouchableNativeFeedback",
    "TouchableHighlight", "Pressable", "Text", "ScrollView"],
   "\nFor \x27useWindowDimensions\x27, please use \x27@src/hooks/useWindowDimensions\x27 instead.\nFor \x27TouchableOpacity\x27, \x27TouchableWithoutFeedback\x27, \x27TouchableNativeFeedback\x27, \x27TouchableHighlight\x27, \x27Pressable\x27, please use \x27PressableWithFeedback\x27 and/or \x27PressableWithoutFeedback\x27 from \x27@components/Pressable\x27 instead.\nFor \x27StatusBar\x27, please use \x27@libs/StatusBar\x27 instead.\nFor \x27Text\x27, please use \x27@components/Text\x27 instead.\nFor \x27ScrollView\x27, please use \x27@components/ScrollView\x27 instead."⟩

/-- `restrictedImportPaths[1]` — the `react-native-gesture-handler` rule. -/
def rnghRule : SymbolRule :=
  ⟨"react-native-gesture-handler",
   ["TouchableOpacity", "TouchableWithoutFeedback",
    "TouchableNativeFeedback", "TouchableHighlight"],
   "Please use \x27PressableWithFeedback\x27 and/or \x27PressableWithoutFeedback\x27 from \x27@components/Pressable\x27 instead."⟩

/-- `restrictedImportPaths[2]` — the `awesome-phonenumber` rule. -/
def phoneRule : SymbolRule :=
  ⟨"awesome-phonenumber", ["parsePhoneNumber"],
   "Please use \x27@libs/PhoneNumber\x27 instead."⟩

/-- `restrictedImportPaths[3]` — the `react-native-safe-area-context`
rule. -/
def safeAreaRule : SymbolRule :=
  ⟨"react-native-safe-area-context",
   ["useSafeAreaInsets", "SafeAreaConsumer", "SafeAreaInsetsContext"],
   "Please use \x27useSafeAreaInsets\x27 from \x27@src/hooks/useSafeAreaInset\x27 and/or \x27SafeAreaConsumer\x27 from \x27@components/SafeAreaConsumer\x27 instead."⟩

/-- `restrictedImportPaths[4]` — the `react` rule. -/
def reactRule : SymbolRule :=
  ⟨"react", ["CSSProperties"],
   "Please use \x27ViewStyle\x27, \x27TextStyle\x27, \x27ImageStyle\x27 from \x27react-native\x27 instead."⟩

/-- `restrictedImportPaths[5]` — the `@styles/index` rule, forbidding the
default import and `defaultStyles`. -/
def stylesIndexRule : SymbolRule :=
  ⟨"@styles/index", ["default", "defaultStyles"],
   "Do not import styles directly. Please use the `useThemeStyles` hook instead."⟩

/-- `restrictedImportPaths[6]` — the `@styles/utils` rule. -/
def styleUtilsRule : SymbolRule :=
  ⟨"@styles/utils", ["default", "DefaultStyleUtils"],
   "Do not import StyleUtils directly. Please use the `useStyleUtils` hook instead."⟩

/-- `restrictedImportPaths[7]` — the `@styles/theme` rule. -/
def stylesThemeRule : SymbolRule :=
  ⟨"@styles/theme", ["default", "defaultTheme"],
   "Do not import themes directly. Please use the `useTheme` hook instead."⟩

/-- `restrictedImportPaths[8]` — the `@styles/theme/illustrations` rule;
no `importNames`, so the whole module is forbidden. -/
def themeIllustrationsRule : SymbolRule :=
  ⟨"@styles/theme/illustrations", [],
   "Do not import theme illustrations directly. Please use the `useThemeIllustrations` hook instead."⟩

/-- `restrictedImportPaths[9]` — the `date-fns/locale` rule; whole module
forbidden. -/
def dateFnsLocaleRule : SymbolRule :=
  ⟨"date-fns/locale", [],
   "Do not import \x27date-fns/locale\x27 directly. Please use the submodule import instead, like \x27date-fns/locale/en-GB\x27."⟩

/-- `restrictedImportPaths[10]` — the `expensify-common` rule. -/
def expensifyCommonRule : SymbolRule :=
  ⟨"expensify-common", ["Device", "ExpensiMark"],
   "\nFor \x27Device\x27, do not import it directly, it\x27s known to make VSCode\x27s IntelliSense crash. Please import the desired module from `expensify-common/dist/Device` instead.\nFor \x27ExpensiMark\x27, please use \x27@libs/Parser\x27 instead."⟩

/-- `restrictedImportPaths[11]` — the `lodash/memoize` rule; no
`importNames`, so the whole module is forbidden. -/
def lodashMemoizeRule : SymbolRule :=
  ⟨"lodash/memoize", [], "Please use \x27@src/libs/memoize\x27 instead."⟩

/-- `restrictedImportPaths[12]` — the `lodash` rule, forbidding the
`memoize` name. -/
def lodashRule : SymbolRule :=
  ⟨"lodash", ["memoize"], "Please use \x27@src/libs/memoize\x27 instead."⟩

/-- The full `restrictedImportPaths` list from `src/index.mjs`. -/
def restrictedImportPaths : List SymbolRule :=
  [rnRule, rnghRule, phoneRule, safeAreaRule, reactRule, stylesIndexRule,
   styleUtilsRule, stylesThemeRule, themeIllustrationsRule,
   dateFnsLocaleRule, expensifyCommonRule, lodashMemoizeRule, lodashRule]

/-- The raw `restrictedImportPatterns` list from `src/index.mjs`: each
entry is a `group` of globs (a leading `!` marks an exclusion) and a
message. -/
def restrictedImportPatterns : List RawPatternRule :=
  [⟨["**/assets/animations/**/*.json"],
    some "Do not import animations directly. Please use the \x27@components/LottieAnimations\x27 import instead."⟩,
   ⟨["@styles/theme/themes/**"],
    some "Do not import themes directly. Please use the `useTheme` hook instead."⟩,
   ⟨["@styles/utils/**", "!@styles/utils/FontUtils", "!@styles/utils/types"],
    some "Do not import style util functions directly. Please use the `useStyleUtils` hook instead."⟩,
   ⟨["@styles/theme/illustrations/themes/**"],
    some "Do not import theme illustrations directly. Please use the `useThemeIllustrations` hook instead."⟩]

/-- The alias map of `@dword-design/import-alias/prefer-alias` in
`src/index.mjs`, in source order. -/
def kirokuAliases : List (String × String) :=
  [("@analytics", "./src/libs/Analytics"),
   ("@assets", "./assets"),
   ("@components", "./src/components"),
   ("@hooks", "./src/hooks"),
   ("@firebase/auth", "./node_modules/@firebase/auth/dist/index.rn.d.ts"),
   ("@userActions", "./src/libs/actions"),
   ("@libs", "./src/libs"),
   ("@navigation", "./src/libs/Navigation"),
   ("@pages", "./src/pages"),
   ("@styles", "./src/styles"),
   ("@src", "./src"),
   ("@desktop", "./desktop"),
   ("@github", "./.github")]

/-- The raw configuration payload assembled from the data above; the
symbol rules carry their messages as present options. -/
def kirokuRawConfig : RawConfig :=
  ⟨kirokuAliases,
   restrictedImportPaths.map (fun r => ⟨r.modulePath, r.forbiddenNames, some r.message⟩),
   restrictedImportPatterns⟩

/-- The `@styles/utils/**` pattern rule after the include/exclude split. -/
def styleUtilsPatternRule : PatternRule :=
  ⟨["@styles/utils/**"], ["@styles/utils/FontUtils", "@styles/utils/types"],
   "Do not import style util functions directly. Please use the `useStyleUtils` hook instead."⟩

/-- The loaded policy rule store for this configuration. -/
def kirokuStore : Store :=
  ⟨restrictedImportPaths,
   restrictedImportPatterns.filterMap (fun r =>
     r.message.map (fun m => ⟨(splitGroup r.group).1, (splitGroup r.group).2, m⟩)),
   kirokuAliases⟩

/-! ## Matcher correctness -/

/-- A `*` run can absorb one more non-separator character on the left. -/
theorem tokSem_star_cons {g : List GlobTok} {d : Char} {p : List Char}
    (hd : d ≠ '/') (h : TokSem (.star :: g) p) : TokSem (.star :: g) (d :: p) := by
  cases h with
  | @star g pre suf hpre hrec =>
    have he : d :: (pre ++ suf) = (d :: pre) ++ suf := rfl
    rw [he]
    refine TokSem.star ?_ hrec
    intro c hc
    rcases List.mem_cons.mp hc with hc | hc
    · exact hc ▸ hd
    · exact hpre c hc

/-- A `**` run can absorb one more character on the left. -/
theorem tokSem_dstar_cons {g : List GlobTok} {d : Char} {p : List Char}
    (h : TokSem (.dstar :: g) p) : TokSem (.dstar :: g) (d :: p) := by
  cases h with
  | @dstar g pre suf hrec =>
    have he : d :: (pre ++ suf) = (d :: pre) ++ suf := rfl
    rw [he]
    exact TokSem.dstar hrec

/-- Soundness: a successful fuel-bounded match is a semantic match. -/
theorem tokMatchAux_sound (f : Nat) :
    ∀ g p, tokMatchAux f g p = true → TokSem g p := by
  induction f with
  | zero => intro g p h; simp [tokMatchAux] at h
  | succ f ih =>
    intro g p h
    cases g with
    | nil =>
      cases p with
      | nil => exact TokSem.nil
      | cons d p => simp [tokMatchAux] at h
    | cons t g =>
      cases t with
      | lit c =>
        cases p with
        | nil => simp [tokMatchAux] at h
        | cons d p =>
          simp only [tokMatchAux, Bool.and_eq_true, decide_eq_true_eq] at h
          exact h.1 ▸ TokSem.lit (ih g p h.2)
      | star =>
        simp only [tokMatchAux, Bool.or_eq_true] at h
        rcases h with h | h
        · have hs : TokSem (.star :: g) ([] ++ p) :=
            TokSem.star (by intro c hc; simp at hc) (ih g p h)
          simpa using hs
        · cases p with
          | nil => simp at h
          | cons d p =>
            simp only [Bool.and_eq_true, decide_eq_true_eq] at h
            exact tokSem_star_cons h.1 (ih _ p h.2)
      | dstar =>
        simp only [tokMatchAux, Bool.or_eq_true] at h
        rcases h with h | h
        · have hs : TokSem (.dstar :: g) ([] ++ p) := TokSem.dstar (ih g p h)
          simpa using hs
        · cases p with
          | nil => simp at h
          | cons d p => exact tokSem_dstar_cons (ih _ p h)

/-- Completeness: a semantic match succeeds once the fuel exceeds the
total length of tokens and path. -/
theorem tokMatchAux_complete (f : Nat) :
    ∀ g p, g.length + p.length < f → TokSem g p → tokMatchAux f g p = true := by
  induction f with
  | zero => intro g p hlt _; omega
  | succ f ih =>
    intro g p hlt hsem
    cases hsem with
    | nil => rfl
    | @lit c g p hrec =>
      simp only [tokMatchAux, Bool.and_eq_true, decide_eq_true_eq]
      exact ⟨trivial, ih g p (by simp at hlt; omega) hrec⟩
    | @star g pre suf hpre hrec =>
      cases pre with
      | nil =>
        simp only [tokMatchAux, Bool.or_eq_true]
        exact Or.inl (ih g suf (by simp at hlt ⊢; omega) hrec)
      | cons d pre =>
        simp only [tokMatchAux, Bool.or_eq_true]
        refine Or.inr ?_
        simp only [List.cons_append, Bool.and_eq_true, decide_eq_true_eq]
        refine ⟨hpre d (by simp), ?_⟩
        refine ih (.star :: g) (pre ++ suf) (by simp at hlt ⊢; omega) ?_
        exact TokSem.star (fun c hc => hpre c (List.mem_cons_of_mem d hc)) hrec
    | @dstar g pre suf hrec =>
      cases pre with
      | nil =>
        simp only [tokMatchAux, Bool.or_eq_true]
        exact Or.inl (ih g suf (by simp at hlt ⊢; omega) hrec)
      | cons d pre =>
        simp only [tokMatchAux, Bool.or_eq_true]
        refine Or.inr ?_
        simp only [List.cons_append]
        refine ih (.dstar :: g) (pre ++ suf) (by simp at hlt ⊢; omega) ?_
        exact TokSem.dstar hrec

/-- The string-level matcher agrees with the declarative semantics. -/
theorem globMatches_iff_tokSem (glob path : String) :
    globMatches glob path = true ↔ TokSem (tokenize glob.toList) path.toList := by
  constructor
  · exact tokMatchAux_sound _ _ _
  · intro h
    exact tokMatchAux_complete _ _ _ (by omega) h

/-! ## Evaluator lemmas -/

/-- A symbol rule fires on a descriptor: the module path matches and
either the whole module is forbidden or some forbidden name is imported. -/
def symbolFires (r : SymbolRule) (d : ImportDescriptor) : Prop :=
  r.modulePath = d.modulePath ∧
    (r.forbiddenNames = [] ∨ ∃ n ∈ r.forbiddenNames, n ∈ d.importedNames)

/-- The exact-match pass on one rule is empty iff the rule does not fire. -/
theorem evalSymbolRule_eq_nil_iff (r : SymbolRule) (d : ImportDescriptor) :
    evalSymbolRule r d = [] ↔ ¬ symbolFires r d := by
  unfold evalSymbolRule symbolFires
  split
  · rename_i hpath
    split
    · rename_i hnil
      simp [hpath, hnil]
    · rename_i hnil
      simp only [List.map_eq_nil_iff, List.filter_eq_nil_iff, hpath, true_and,
        List.contains, List.elem_eq_mem, not_or, decide_eq_true_eq]
      constructor
      · intro h
        exact ⟨hnil, by simpa using h⟩
      · intro h
        simpa using h.2
  · rename_i hpath
    simp [hpath]

/-- A pattern rule fires iff some include glob matches and no exclude
glob matches. -/
theorem patternFires_iff (r : PatternRule) (path : String) :
    patternFires r path = true ↔
      ((∃ g ∈ r.includeGlobs, globMatches g path = true) ∧
        ∀ g ∈ r.excludeGlobs, globMatches g path = false) := by
  unfold patternFires
  simp [List.any_eq_true, Bool.not_eq_true']

/-- `evaluate` is empty iff no symbol rule and no pattern rule fires. -/
theorem evaluate_eq_nil_iff (d : ImportDescriptor) (s : Store) :
    evaluate d s = [] ↔
      ((∀ r ∈ s.symbolRules, ¬ symbolFires r d) ∧
        ∀ r ∈ s.patternRules, patternFires r d.modulePath = false) := by
  unfold evaluate symbolPass patternPass
  rw [List.append_eq_nil]
  constructor
  · rintro ⟨h1, h2⟩
    constructor
    · intro r hr
      rw [← evalSymbolRule_eq_nil_iff]
      rw [List.flatMap_eq_nil_iff] at h1
      exact h1 r hr
    · intro r hr
      rw [List.filterMap_eq_nil_iff] at h2
      have := h2 r hr
      by_contra hfire
      rw [Bool.not_eq_false] at hfire
      simp [hfire] at this
  · rintro ⟨h1, h2⟩
    constructor
    · rw [List.flatMap_eq_nil_iff]
      intro r hr
      exact (evalSymbolRule_eq_nil_iff r d).mpr (h1 r hr)
    · rw [List.filterMap_eq_nil_iff]
      intro r hr
      simp [h2 r hr]

/-- The exact-match pass produces a violation naming `n` iff the module
path matches, the rule forbids `n`, and the import brings `n` in. -/
theorem evalSymbolRule_matchedName (r : SymbolRule) (d : ImportDescriptor)
    (n : String) :
    (∃ v ∈ evalSymbolRule r d, v.matchedName = some n) ↔
      (r.modulePath = d.modulePath ∧ n ∈ r.forbiddenNames ∧
        n ∈ d.importedNames) := by
  unfold evalSymbolRule
  split
  · rename_i hpath
    split
    · rename_i hnil
      simp [hpath, hnil]
    · constructor
      · rintro ⟨v, hv, hm⟩
        rcases List.mem_map.mp hv with ⟨a, ha, rfl⟩
        rcases List.mem_filter.mp ha with ⟨haf, hai⟩
        rcases Option.some.inj hm with rfl
        exact ⟨hpath, haf, by simpa [List.contains, List.elem_eq_mem] using hai⟩
      · rintro ⟨_, hf, hi⟩
        refine ⟨_, List.mem_map.mpr ⟨n, List.mem_filter.mpr ⟨hf, ?_⟩, rfl⟩, rfl⟩
        simpa [List.contains, List.elem_eq_mem] using hi
  · rename_i hpath
    simp only [List.not_mem_nil, false_and, exists_false, false_iff, not_and]
    intro h
    exact absurd h hpath

/-! ## Loader lemmas -/

/-- `loadAliases` returns the accumulator followed by its input. -/
theorem loadAliases_ok_val :
    ∀ (as acc r : List (String × String)),
      loadAliases acc as = .ok r → r = acc ++ as := by
  intro as
  induction as with
  | nil =>
    intro acc r h
    cases h
    simp
  | cons a rest ih =>
    intro acc r h
    simp only [loadAliases] at h
    cases hE : addAlias acc a with
    | error e =>
      rw [hE] at h
      cases h
    | ok acc' =>
      rw [hE] at h
      have hval := ih acc' r h
      unfold addAlias at hE
      split at hE
      · cases hE
      · cases hE
        simpa using hval

/-- `loadAliases` succeeds from a duplicate-free accumulator iff the
combined alias keys are duplicate-free. -/
theorem loadAliases_isOk_iff :
    ∀ (as acc : List (String × String)), (acc.map Prod.fst).Nodup →
      ((∃ r, loadAliases acc as = .ok r) ↔
        ((acc ++ as).map Prod.fst).Nodup) := by
  intro as
  induction as with
  | nil =>
    intro acc hacc
    simpa [loadAliases] using hacc
  | cons a rest ih =>
    intro acc hacc
    simp only [loadAliases]
    cases hE : addAlias acc a with
    | error e =>
      have hmem : a.1 ∈ acc.map Prod.fst := by
        unfold addAlias at hE
        by_cases hc : (acc.any fun q => decide (q.1 = a.1)) = true
        · rcases List.any_eq_true.mp hc with ⟨q, hq, hq1⟩
          exact List.mem_map.mpr ⟨q, hq, of_decide_eq_true hq1⟩
        · rw [if_neg hc] at hE
          cases hE
      constructor
      · rintro ⟨r, hr⟩
        cases hr
      · intro hnd
        rw [List.map_append, List.nodup_append] at hnd
        exact absurd (by simp) (hnd.2.2 hmem)
    | ok acc' =>
      have hE' : acc' = acc ++ [a] ∧ a.1 ∉ acc.map Prod.fst := by
        unfold addAlias at hE
        by_cases hc : (acc.any fun q => decide (q.1 = a.1)) = true
        · rw [if_pos hc] at hE
          cases hE
        · rw [if_neg hc] at hE
          cases hE
          refine ⟨rfl, ?_⟩
          intro hmem
          rcases List.mem_map.mp hmem with ⟨q, hq, hq1⟩
          exact hc (List.any_eq_true.mpr ⟨q, hq, decide_eq_true hq1⟩)
      rcases hE' with ⟨rfl, hnot⟩
      have hacc' : ((acc ++ [a]).map Prod.fst).Nodup := by
        rw [List.map_append, List.nodup_append]
        refine ⟨hacc, List.nodup_singleton _, ?_⟩
        intro x hx hx'
        simp only [List.map_cons, List.map_nil, List.mem_singleton] at hx'
        exact hnot (hx' ▸ hx)
      rw [ih (acc ++ [a]) hacc']
      simp

/-- `loadList` succeeds iff every element validates. -/
theorem loadList_isOk_iff {α β : Type} (f : α → Except ConfigError β) :
    ∀ as : List α,
      (∃ r, loadList f as = .ok r) ↔ ∀ a ∈ as, ∃ b, f a = .ok b := by
  intro as
  induction as with
  | nil => simp [loadList]
  | cons a rest ih =>
    simp only [loadList]
    cases hE : f a with
    | error e =>
      constructor
      · rintro ⟨r, hr⟩
        cases hr
      · intro h
        rcases h a (List.mem_cons_self a rest) with ⟨b, hb⟩
        rw [hE] at hb
        cases hb
    | ok b =>
      constructor
      · rintro ⟨r, hr⟩
        intro x hx
        rcases List.mem_cons.mp hx with rfl | hx
        · exact ⟨b, hE⟩
        · cases hR : loadList f rest with
          | error e =>
            rw [hR] at hr
            cases hr
          | ok bs => exact (ih.mp ⟨bs, hR⟩) x hx
      · intro h
        rcases ih.mpr (fun x hx => h x (List.mem_cons_of_mem a hx)) with ⟨bs, hbs⟩
        exact ⟨b :: bs, by rw [hbs]⟩

/-- Validating a raw symbol rule succeeds iff its message is present. -/
theorem loadSymbolRule_isOk (r : RawSymbolRule) :
    (∃ b, loadSymbolRule r = .ok b) ↔ r.message.isSome = true := by
  rcases r with ⟨mp, fn, msg⟩
  cases msg <;> simp [loadSymbolRule]

/-- Validating a raw pattern rule succeeds iff its message is present. -/
theorem loadPatternRule_isOk (r : RawPatternRule) :
    (∃ b, loadPatternRule r = .ok b) ↔ r.message.isSome = true := by
  rcases r with ⟨gs, msg⟩
  cases msg <;> simp [loadPatternRule]

/-- `load` succeeds iff the alias keys are pairwise distinct and every
restricted rule carries a message. -/
theorem load_isOk_iff (c : RawConfig) :
    (∃ s, load c = .ok s) ↔
      ((c.aliases.map Prod.fst).Nodup ∧
        (∀ r ∈ c.symbolRules, r.message.isSome = true) ∧
        (∀ r ∈ c.patternRules, r.message.isSome = true)) := by
  have hAiff : (∃ r, loadAliases [] c.aliases = .ok r) ↔
      (c.aliases.map Prod.fst).Nodup := by
    simpa using loadAliases_isOk_iff c.aliases [] (by simp)
  have hSiff := (loadList_isOk_iff loadSymbolRule c.symbolRules)
  have hPiff := (loadList_isOk_iff loadPatternRule c.patternRules)
  unfold load
  cases hA : loadAliases [] c.aliases with
  | error e =>
    constructor
    · rintro ⟨s, hs⟩
      cases hs
    · rintro ⟨hnd, _, _⟩
      rcases hAiff.mpr hnd with ⟨r, hr⟩
      rw [hA] at hr
      cases hr
  | ok al =>
    cases hS : loadList loadSymbolRule c.symbolRules with
    | error e =>
      constructor
      · rintro ⟨s, hs⟩
        cases hs
      · rintro ⟨_, hmsg, _⟩
        rcases hSiff.mpr (fun r hr => (loadSymbolRule_isOk r).mpr (hmsg r hr)) with
          ⟨bs, hbs⟩
        rw [hS] at hbs
        cases hbs
    | ok sr =>
      cases hP : loadList loadPatternRule c.patternRules with
      | error e =>
        constructor
        · rintro ⟨s, hs⟩
          cases hs
        · rintro ⟨_, _, hmsg⟩
          rcases hPiff.mpr (fun r hr => (loadPatternRule_isOk r).mpr (hmsg r hr)) with
            ⟨bs, hbs⟩
          rw [hP] at hbs
          cases hbs
      | ok pr =>
        constructor
        · rintro ⟨s, _⟩
          refine ⟨hAiff.mp ⟨al, hA⟩, ?_, ?_⟩
          · intro r hr
            exact (loadSymbolRule_isOk r).mp (hSiff.mp ⟨sr, hS⟩ r hr)
          · intro r hr
            exact (loadPatternRule_isOk r).mp (hPiff.mp ⟨pr, hP⟩ r hr)
        · intro _
          exact ⟨⟨sr, pr, al⟩, rfl⟩

/-- A successfully loaded store keeps the raw alias list unchanged. -/
theorem load_ok_aliasRules (c : RawConfig) (s : Store) (h : load c = .ok s) :
    s.aliasRules = c.aliases := by
  unfold load at h
  cases hA : loadAliases [] c.aliases with
  | error e =>
    rw [hA] at h
    cases h
  | ok al =>
    rw [hA] at h
    cases hS : loadList loadSymbolRule c.symbolRules with
    | error e =>
      rw [hS] at h
      cases h
    | ok sr =>
      rw [hS] at h
      cases hP : loadList loadPatternRule c.patternRules with
      | error e =>
        rw [hP] at h
        cases h
      | ok pr =>
        rw [hP] at h
        cases h
        simpa using loadAliases_ok_val c.aliases [] al hA

/-! ## Auxiliary concrete material for the claims -/

/-- A pattern rule used to exhibit one import firing both passes. -/
def twoPassPatternRule : PatternRule :=
  ⟨["lodash/**"], [], "Do not deep-import lodash submodules."⟩

/-- A store whose symbol rule and pattern rule both fire on the import
of `lodash/memoize`. -/
def twoPassStore : Store := ⟨[lodashMemoizeRule], [twoPassPatternRule], []⟩

/-- Two successive calls of `evaluate` on the same inputs. -/
def callTwice (d : ImportDescriptor) (s : Store) :
    List Violation × List Violation :=
  (evaluate d s, evaluate d s)

/-! ## Claims -/

/-- C1: for the descriptor with module path `lodash` and imported names
`{memoize}`, `evaluate` over the configured store returns exactly one
violation, referencing the `lodash` symbol rule, with the message
"Please use '@src/libs/memoize' instead.". -/
theorem lodash_memoize_named_import_violation :
    evaluate ⟨"lodash", ["memoize"]⟩ kirokuStore =
      [⟨.symbol lodashRule, "lodash", some "memoize",
        "Please use \x27@src/libs/memoize\x27 instead."⟩] ∧
    lodashRule ∈ kirokuStore.symbolRules ∧
    lodashRule.modulePath = "lodash" :=
  ⟨by decide, by decide, rfl⟩

/-- C2: for the descriptor with module path `lodash/memoize` and no
imported names, `evaluate` returns exactly one module-level violation
(the rule's forbidden-name list is empty) with the same message. -/
theorem lodash_memoize_module_violation :
    evaluate ⟨"lodash/memoize", []⟩ kirokuStore =
      [⟨.symbol lodashMemoizeRule, "lodash/memoize", none,
        "Please use \x27@src/libs/memoize\x27 instead."⟩] ∧
    lodashMemoizeRule.forbiddenNames = [] ∧
    lodashMemoizeRule ∈ kirokuStore.symbolRules :=
  ⟨by decide, rfl, by decide⟩

/-- C3: a pattern rule fires iff the path matches some include glob and
no exclude glob — includes are order-independent, excludes dominate; in
particular `@styles/utils/FontUtils` matches the include of the
configured `@styles/utils/**` rule but is excluded, so it yields no
violation at all. -/
theorem pattern_rule_include_exclude_semantics :
    (∀ (r : PatternRule) (path : String),
      patternFires r path = true ↔
        ((∃ g ∈ r.includeGlobs, globMatches g path = true) ∧
          ∀ g ∈ r.excludeGlobs, globMatches g path = false)) ∧
    styleUtilsPatternRule ∈ kirokuStore.patternRules ∧
    globMatches "@styles/utils/**" "@styles/utils/FontUtils" = true ∧
    patternFires styleUtilsPatternRule "@styles/utils/FontUtils" = false ∧
    evaluate ⟨"@styles/utils/FontUtils", []⟩ kirokuStore = [] :=
  ⟨patternFires_iff, by decide, by decide, by decide, by decide⟩

/-- C4: the matcher `globMatches` is a pure boolean function agreeing
with the declarative token semantics — `*` matches any separator-free
run, `**` any run at all — and handles the configured nested-directory
and extension globs on concrete candidate paths. -/
theorem glob_matcher_semantics :
    (∀ glob path : String,
      globMatches glob path = true ↔
        TokSem (tokenize glob.toList) path.toList) ∧
    globMatches "@styles/theme/themes/**" "@styles/theme/themes/dark" = true ∧
    globMatches "@styles/theme/themes/**" "@styles/theme/light" = false ∧
    globMatches "**/assets/animations/**/*.json"
      "src/assets/animations/loading/spinner.json" = true ∧
    globMatches "**/assets/animations/**/*.json"
      "src/assets/animations/loading/spinner.png" = false ∧
    globMatches "@styles/*" "@styles/utils" = true ∧
    globMatches "@styles/*" "@styles/utils/FontUtils" = false ∧
    globMatches "@styles/**" "@styles/utils/FontUtils" = true :=
  ⟨globMatches_iff_tokSem, by decide, by decide, by decide, by decide,
   by decide, by decide, by decide⟩

/-- C5: the exact-match pass emits a violation naming `n` — in
particular the literal name `default` — iff some symbol rule has the
descriptor's module path and lists `n` among its forbidden names while
the descriptor imports `n`; a whole-module rule never yields a named
match. -/
theorem default_import_matched_literally :
    (∀ (s : Store) (d : ImportDescriptor) (n : String),
      (∃ v ∈ symbolPass d s, v.matchedName = some n) ↔
        ∃ r ∈ s.symbolRules, r.modulePath = d.modulePath ∧
          n ∈ r.forbiddenNames ∧ n ∈ d.importedNames) ∧
    "default" ∈ stylesIndexRule.forbiddenNames ∧
    evaluate ⟨"@styles/index", ["default"]⟩ kirokuStore =
      [⟨.symbol stylesIndexRule, "@styles/index", some "default",
        stylesIndexRule.message⟩] ∧
    evaluate ⟨"@styles/theme/illustrations", ["default"]⟩ kirokuStore =
      [⟨.symbol themeIllustrationsRule, "@styles/theme/illustrations", none,
        themeIllustrationsRule.message⟩] := by
  refine ⟨?_, by decide, by decide, by decide⟩
  intro s d n
  constructor
  · rintro ⟨v, hv, hm⟩
    rcases List.mem_flatMap.mp hv with ⟨r, hr, hvr⟩
    exact ⟨r, hr, (evalSymbolRule_matchedName r d n).mp ⟨v, hvr, hm⟩⟩
  · rintro ⟨r, hr, hprop⟩
    rcases (evalSymbolRule_matchedName r d n).mpr hprop with ⟨v, hvr, hm⟩
    exact ⟨v, List.mem_flatMap.mpr ⟨r, hr, hvr⟩, hm⟩

/-- C6: `evaluate` is the concatenation of the two independent passes,
without deduplication; the exhibited store shows one import producing a
violation from each pass. -/
theorem evaluate_two_passes_concat :
    (∀ (d : ImportDescriptor) (s : Store),
      evaluate d s = symbolPass d s ++ patternPass d s ∧
        (evaluate d s).length =
          (symbolPass d s).length + (patternPass d s).length) ∧
    evaluate ⟨"lodash/memoize", []⟩ twoPassStore =
      [⟨.symbol lodashMemoizeRule, "lodash/memoize", none,
        lodashMemoizeRule.message⟩,
       ⟨.pattern twoPassPatternRule, "lodash/memoize", none,
        twoPassPatternRule.message⟩] ∧
    symbolPass ⟨"lodash/memoize", []⟩ twoPassStore =
      [⟨.symbol lodashMemoizeRule, "lodash/memoize", none,
        lodashMemoizeRule.message⟩] ∧
    patternPass ⟨"lodash/memoize", []⟩ twoPassStore =
      [⟨.pattern twoPassPatternRule, "lodash/memoize", none,
        twoPassPatternRule.message⟩] :=
  ⟨fun _ _ => ⟨rfl, by simp [evaluate]⟩, by decide, by decide, by decide⟩

/-- C7: `evaluate` returns the empty sequence exactly when no symbol
rule and no pattern rule fires — evaluation is total and an unknown
module is not an error. -/
theorem evaluate_empty_on_no_match :
    (∀ (d : ImportDescriptor) (s : Store),
      evaluate d s = [] ↔
        ((∀ r ∈ s.symbolRules, ¬ symbolFires r d) ∧
          ∀ r ∈ s.patternRules, patternFires r d.modulePath = false)) ∧
    evaluate ⟨"left-pad", ["pad"]⟩ kirokuStore = [] ∧
    evaluate ⟨"some-unknown-module", []⟩ kirokuStore = [] :=
  ⟨evaluate_eq_nil_iff, by decide, by decide⟩

/-- C8: `load` succeeds iff no alias prefix collides and every
restricted rule has a message; a successfully loaded store therefore
has pairwise-distinct alias prefixes, and the configured payload loads
into the configured store, whose prefixes are pairwise distinct. -/
theorem load_config_error_semantics :
    (∀ c : RawConfig,
      (∃ s, load c = .ok s) ↔
        ((c.aliases.map Prod.fst).Nodup ∧
          (∀ r ∈ c.symbolRules, r.message.isSome = true) ∧
          (∀ r ∈ c.patternRules, r.message.isSome = true))) ∧
    (∀ (c : RawConfig) (s : Store),
      load c = .ok s → (s.aliasRules.map Prod.fst).Nodup) ∧
    load kirokuRawConfig = .ok kirokuStore ∧
    (kirokuAliases.map Prod.fst).Nodup := by
  refine ⟨load_isOk_iff, ?_, by rfl, by decide⟩
  intro c s h
  rw [load_ok_aliasRules c s h]
  exact ((load_isOk_iff c).mp ⟨s, h⟩).1

/-- Witness for C8: the implication of `load_config_error_semantics` is
discharged at the configured payload. -/
theorem load_config_error_semantics_witness :
    (kirokuStore.aliasRules.map Prod.fst).Nodup :=
  load_config_error_semantics.2.1 kirokuRawConfig kirokuStore
    load_config_error_semantics.2.2.1

/-- C9: `evaluate` is deterministic and idempotent under repetition —
two calls with the same descriptor and store return the identical
violation sequence. -/
theorem evaluate_deterministic_idempotent :
    ∀ (d : ImportDescriptor) (s : Store),
      (callTwice d s).1 = (callTwice d s).2 ∧
        (callTwice d s).1 = evaluate d s :=
  fun _ _ => ⟨rfl, rfl⟩

/-- C10: the path `@styles/utils/types` matches the include glob of the
configured `@styles/utils/**` rule but is listed as an exclude, so the
rule does not fire and — whatever names are imported — the configured
store yields no violation for it. -/
theorem style_utils_types_excluded :
    "@styles/utils/types" ∈ styleUtilsPatternRule.excludeGlobs ∧
    globMatches "@styles/utils/**" "@styles/utils/types" = true ∧
    patternFires styleUtilsPatternRule "@styles/utils/types" = false ∧
    ∀ ns, evaluate ⟨"@styles/utils/types", ns⟩ kirokuStore = [] := by
  refine ⟨by decide, by decide, by decide, ?_⟩
  intro ns
  rw [evaluate_eq_nil_iff]
  have hall : ∀ r ∈ kirokuStore.symbolRules,
      r.modulePath ≠ "@styles/utils/types" := by decide
  have hpat : ∀ r ∈ kirokuStore.patternRules,
      patternFires r "@styles/utils/types" = false := by decide
  exact ⟨fun r hr hfire => hall r hr hfire.1, hpat⟩

end Kiroku
